import Mathlib

/-!
# Verification of the slack-irc bridge core (`lib/helpers.js`, `lib/bot.js`)

A shallow embedding, in Lean 4, of the text-transformation and relay logic of
the slack-irc bridge.  JavaScript strings are modelled as `List Char` /
`String`; the global `String.replace(regex, …)` calls are modelled by a
left-to-right scanner that applies a per-position matcher, exactly mirroring
the semantics of a global regex replace (each matcher consumes at least one
character, and scanning resumes after the consumed segment).  Fallible
JavaScript code (property access on `undefined`, reference to an unbound
identifier) is modelled with `Except JsErr`.  Event-emitting calls
(`ircClient.say`, `rtm.sendMessage`, `web.chat.postMessage`, …) are modelled
as an accumulated list of `Effect`s; one-shot listener registrations
(`ircClient.once`) are recorded as registration effects (their callbacks run
on later inbound events, outside a single message-handling step), while the
`whois` reply — whose outcome the handler consumes synchronously in its
continuation — is supplied by an environment field of the `Bot` state.
-/

namespace SlackIrc

/-- JavaScript runtime errors that the modelled code can raise:
`TypeError` (property access / destructuring on `undefined`) and
`ReferenceError` (use of an unbound identifier). -/
inductive JsErr : Type
  | typeError (ctx : String)
  | referenceError (ident : String)
  deriving DecidableEq, Repr

/-- The `\w` class of JavaScript regexes: ASCII letters, digits and underscore. -/
def isWordChar (c : Char) : Bool :=
  (('a' ≤ c ∧ c ≤ 'z') ∨ ('A' ≤ c ∧ c ≤ 'Z') ∨ ('0' ≤ c ∧ c ≤ '9') ∨ c = '_')

/-- The `\d` class of JavaScript regexes. -/
def isDigitChar (c : Char) : Bool := '0' ≤ c ∧ c ≤ '9'

/-- The `\s` class of JavaScript regexes, restricted to the ASCII whitespace characters
(space, tab, line feed, carriage return, vertical tab, form feed). -/
def isSpaceChar (c : Char) : Bool :=
  c = ' ' ∨ c = '\t' ∨ c = '\n' ∨ c = '\r' ∨ c = '\x0b' ∨ c = '\x0c'

/-- Characters that `.` does not match in a JavaScript regex without the `s`
flag: line terminators. -/
def isLineTerm (c : Char) : Bool :=
  c = '\n' ∨ c = '\r' ∨ c = '\u2028' ∨ c = '\u2029'

/-- Length of the longest prefix of `l` whose characters satisfy `p`
(the text a greedy `p+`/`p*` consumes). -/
def runLen (p : Char → Bool) : List Char → Nat
  | [] => 0
  | c :: cs => if p c then runLen p cs + 1 else 0

/-- Index of the first occurrence of `tgt`, scanning left to right and
failing if a character satisfying `stop` (or the end of the list) is reached
first.  Used to model a lazy `X+?` followed by the literal `tgt`, where `X`
excludes the `stop` characters. -/
def idxUntil (tgt : Char) (stop : Char → Bool) : List Char → Option Nat
  | [] => none
  | c :: cs =>
    if c = tgt then some 0
    else if stop c then none
    else (idxUntil tgt stop cs).map (· + 1)

/-- A matcher takes the suffix of the text starting at the current scan position
and either fails or returns the number of characters the regex match consumed
(always ≥ 1 for the regexes of this program) together with the replacement.
-/
abbrev Matcher := List Char → Option (Nat × List Char)

/-- Fuelled left-to-right global-replace scanner (fuel bounds the number of
scan steps; `replaceScan` supplies `l.length`, which suffices because every
match consumes at least one character). -/
def replaceScanAux (m : Matcher) : Nat → List Char → List Char
  | 0, l => l
  | _ + 1, [] => []
  | fuel + 1, c :: cs =>
    match m (c :: cs) with
    | some (k, rep) => rep ++ replaceScanAux m fuel (cs.drop (k - 1))
    | none => c :: replaceScanAux m fuel cs

/-- JavaScript `text.replace(regex, …)` with the `g` flag: scan left to right, replacing
each match and resuming after it. -/
def replaceScan (m : Matcher) (l : List Char) : List Char :=
  replaceScanAux m l.length l

/-- Matcher for a fixed literal pattern (a regex with no metacharacters). -/
def mLit (pat rep : List Char) : Matcher := fun cs =>
  if pat ≠ [] ∧ pat.isPrefixOf cs then some (pat.length, rep) else none

/-- One full literal global-replace pass, on `String`s. -/
def replaceAllLit (pat rep s : String) : String :=
  ⟨replaceScan (mLit pat.data rep.data) s.data⟩

/-- Matcher for `/\x03\d{2}(.+?)\x0F/` (bot.js `convertFormatting`, first
replace): a color control code, two digits, a lazy non-empty body of
non-line-terminator characters, and the reset control character.  The body is
replaced by a backtick-wrapped code span. -/
def mColor : Matcher := fun s =>
  match s with
  | c :: d1 :: d2 :: rest =>
    if c = '\x03' ∧ isDigitChar d1 ∧ isDigitChar d2 then
      match rest with
      | [] => none
      | r0 :: rtl =>
        if isLineTerm r0 then none
        else
          match idxUntil '\x0F' isLineTerm rtl with
          | none => none
          | some k =>
            some (3 + (k + 1) + 1, '`' :: rest.take (k + 1) ++ ['`'])
    else none
  | _ => none

/-- Matcher for `/\x02(.+?)\x0F/` (bot.js `convertFormatting`, second
replace): bold control character, lazy non-empty body, reset; the body is
wrapped in asterisks. -/
def mBold : Matcher := fun s =>
  match s with
  | c :: rest =>
    if c = '\x02' then
      match rest with
      | [] => none
      | r0 :: rtl =>
        if isLineTerm r0 then none
        else
          match idxUntil '\x0F' isLineTerm rtl with
          | none => none
          | some k =>
            some (1 + (k + 1) + 1, '*' :: rest.take (k + 1) ++ ['*'])
    else none
  | [] => none

/-- bot.js `convertFormatting(text)`: converts legacy (IRC) color spans to
backticked code spans, then bold spans to asterisk-wrapped spans. -/
def convertFormatting (text : String) : String :=
  ⟨replaceScan mBold (replaceScan mColor text.data)⟩

/-- The characters of the character class `[,.:!?]` in helpers.js
`highlightUsername`'s dynamically built regex `^${user}[,.:!?]?$`. -/
def classChars : List Char := [',', '.', ':', '!', '?']

/-- Matching the interpolated `${user}` part of the dynamic regex against a
word: each pattern character consumes exactly one word character — `.` as the
regex wildcard, every other character literally.  Returns the unconsumed
suffix of the word.  (This interprets the dynamically built pattern for user
names whose characters are regex-literal or the dot; other metacharacters do
not occur in the names this function is applied to.) -/
def atomsMatch : List Char → List Char → Option (List Char)
  | [], w => some w
  | _ :: _, [] => none
  | p :: ps, c :: cs => if p = '.' ∨ p = c then atomsMatch ps cs else none

/-- The test `new RegExp(`^${user}[,.:!?]?$`).test(word)` from helpers.js
`highlightUsername`: the whole word is the user pattern optionally followed
by exactly one of `,.:!?`. -/
def userRegExpTest (user w : List Char) : Bool :=
  match atomsMatch user w with
  | none => false
  | some [] => true
  | some [c] => classChars.contains c
  | some (_ :: _ :: _) => false

/-- The per-word body of helpers.js `highlightUsername`: a word already
starting with `@user` (checked literally via `word.indexOf('@'+user) === 0`)
is kept; a word matching the dynamic regex is prefixed with `@`; any other
word is kept. -/
def highlightWord (user w : List Char) : List Char :=
  if ('@' :: user).isPrefixOf w then w
  else if userRegExpTest user w then '@' :: w
  else w

/-- JavaScript `text.split(' ')`: split on every single space character,
preserving empty fragments. -/
def splitSp : List Char → List (List Char)
  | [] => [[]]
  | c :: cs =>
    if c = ' ' then [] :: splitSp cs
    else
      match splitSp cs with
      | [] => [[c]]
      | w :: ws => (c :: w) :: ws

/-- JavaScript `words.join(' ')`. -/
def joinSp : List (List Char) → List Char
  | [] => []
  | [w] => w
  | w :: ws => w ++ ' ' :: joinSp ws

/-- helpers.js `highlightUsername(user, text)`: split on spaces, transform
each word, join with spaces. -/
def highlightUsername (user text : String) : String :=
  ⟨joinSp ((splitSp text.data).map (highlightWord user.data))⟩

/-- bot.js `mapSlackUsers(slackChannel, text)`, with the channel-member name
list abstracted out: `usernames.reduce((current, username) =>
highlightUsername(username, current), text)`. -/
def mapSlackUsersFold (usernames : List String) (text : String) : String :=
  usernames.foldl (fun current username => highlightUsername username current) text

/-- JavaScript regex metacharacters.  A user name avoiding all of them is
interpolated into `highlightUsername`'s dynamic regex purely literally. -/
def regexMetaChars : List Char :=
  ['.', '*', '+', '?', '(', ')', '[', ']', '\x7b', '\x7d', '|', '^', '$', '\\']

/-- The user name contains no regex metacharacter. -/
def NoMeta (u : String) : Prop := ∀ c ∈ u.data, c ∉ regexMetaChars

instance (u : String) : Decidable (NoMeta u) := by
  unfold NoMeta; infer_instance

/-- The spec's description of the per-word rule (§4.2 `highlightMention`):
leave a token beginning with `@candidateName` unchanged; prefix `@` when the
bare token case-sensitively equals the candidate name optionally followed by
exactly one of `,.:!?`; leave every other token unchanged. -/
def specHighlightWord (user w : List Char) : List Char :=
  if ('@' :: user).isPrefixOf w then w
  else if w = user ∨ classChars.any (fun c => w = user ++ [c]) = true then '@' :: w
  else w

/-- The spec-side whole-text mention highlighter (token-wise application of
`specHighlightWord` over space-delimited tokens). -/
def specHighlight (user text : String) : String :=
  ⟨joinSp ((splitSp text.data).map (specHighlightWord user.data))⟩

/-- One full member pass applied to a single word: fold `highlightWord`
over the member names. -/
def wordPass (users : List String) (w : List Char) : List Char :=
  users.foldl (fun cur u => highlightWord u.data cur) w

/-- JavaScript `s.toLowerCase()` (ASCII case mapping). -/
def toLowerStr (s : String) : String := ⟨s.data.map Char.toLower⟩

/-- The per-entry normalization in the `Bot` constructor:
`ircChan.split(' ')[0].toLowerCase()` — drop the channel password (everything
from the first space on) and lowercase the legacy channel name. -/
def normalizeIrcChannel (s : String) : String :=
  ⟨(s.data.takeWhile (fun c => c ≠ ' ')).map Char.toLower⟩

/-- The `Bot` constructor's `channelMapping` build: a JavaScript object is
modelled as an association list with unique keys (insertion order preserved);
each legacy channel value is normalized. -/
def buildChannelMapping (opts : List (String × String)) : List (String × String) :=
  opts.map (fun p => (p.1, normalizeIrcChannel p.2))

/-- Lodash `_.invert(channelMapping)`: value→key map where a later entry overwrites
an earlier one with the same value; modelled as the reversed swapped list
(first-match lookup on the reversal = last-write-wins of the fold). -/
def invertMapping (m : List (String × String)) : List (String × String) :=
  (m.map (fun p => (p.2, p.1))).reverse

/-- A workspace (Slack) user record, as read from the RTM data store. -/
structure SlackUser where
  name : String
  deriving DecidableEq, Repr

/-- A workspace channel / group / DM record, as read from the data store. -/
structure SlackChannel where
  id : String
  name : String
  is_channel : Bool
  is_member : Bool
  is_group : Bool
  members : List String
  deriving DecidableEq, Repr

/-- One live shadow IRC client (an entry of the bridge's `ircClients`
table): its current IRC nick and the workspace name it stands for. -/
structure IrcClientSt where
  nick : String
  slackName : String
  deriving DecidableEq, Repr

/-- The workspace RTM data-store directory interface used by the bridge;
each lookup may fail (JavaScript `undefined`), in which case any property
access on the result raises a `TypeError`. -/
structure DataStore where
  getChannelGroupOrDMById : String → Option SlackChannel
  getChannelById : String → Option SlackChannel
  getUserById : String → Option SlackUser
  getChannelOrGroupByName : String → Option SlackChannel

/-- Per-user outbound message queues: user id → (target nick → pending
texts).  The queue store itself lives on the bridge; it is initialised by
shadow-session creation code outside the analysed sources (spec §3: each
shadow session owns "a per-target outbound message queue"). -/
def MessageQueues : Type := List (String × List (String × List String))

/-- An attached file of a `file_share` workspace message. -/
structure SlackFile where
  permalink : String
  permalink_public : String
  initial_comment : Option String
  deriving DecidableEq, Repr

/-- An inbound workspace message event (the fields of the RTM `message`
event that the relay reads). -/
structure SlackMessage where
  channel : String
  user : String
  text : String
  subtype : Option String
  file : Option SlackFile
  deriving DecidableEq, Repr

/-- The bridge state (bot.js `Bot` fields used by the relay core), plus the
environment oracles for synchronously-consumed external replies:
`imChannelOf` is the DM channel id that `slack.web.im.open` reports for a
user, and `whoisHost` is the `host` field of the IRC `whois` reply (`none`
when the nick is offline). -/
structure Bot where
  nickname : String
  commandCharacters : List String
  channelMapping : List (String × String)
  invertedMapping : List (String × String)
  muteSlackbot : Bool
  muteUsersSlack : List String
  muteUsersIrc : List String
  nickSuffix : String
  slackUsernameFormat : String
  avatarUrl : Option String
  ircClients : List (String × IrcClientSt)
  messageQueues : MessageQueues
  dataStore : DataStore
  emojis : String → Option String
  imChannelOf : String → String
  whoisHost : String → Option String

/-- bot.js `currentShadowNicks()`: the nicks of all live shadow clients. -/
def currentShadowNicks (bot : Bot) : List String :=
  bot.ircClients.map (fun p => p.2.nick)

/-- bot.js `ircNick(slackName)`: replace dots by dashes, truncate to
`SERVER_NICKLEN (16) - suffix.length` characters, append the suffix. -/
def ircNick (nickSuffix slackName : String) : String :=
  ⟨((slackName.data.map (fun c => if c = '.' then '-' else c)).take
      (16 - nickSuffix.length)) ++ nickSuffix.data⟩

/-- Matcher for `/\n|\r\n|\r/` (parseText step 1): each line-break variant
becomes a single space (`\r\n` is consumed as one match because the `\r`
alternative only applies after `\r\n` fails at that position). -/
def mNL : Matcher := fun cs =>
  match cs with
  | c :: d :: _ =>
    if c = '\r' ∧ d = '\n' then some (2, [' '])
    else if c = '\n' ∨ c = '\r' then some (1, [' ']) else none
  | [c] => if c = '\n' ∨ c = '\r' then some (1, [' ']) else none
  | [] => none

/-- A matcher whose replacement may raise a JavaScript error (a `replace`
callback that throws). -/
abbrev EMatcher := List Char → Option (Nat × Except JsErr (List Char))

/-- Fuelled scanner for a global replace whose callback may throw: the
leftmost match whose replacement errors aborts the whole replace. -/
def replaceScanAuxE (m : EMatcher) : Nat → List Char → Except JsErr (List Char)
  | 0, l => .ok l
  | _ + 1, [] => .ok []
  | fuel + 1, c :: cs =>
    match m (c :: cs) with
    | some (_, .error e) => .error e
    | some (k, .ok rep) =>
      match replaceScanAuxE m fuel (cs.drop (k - 1)) with
      | .error e => .error e
      | .ok tail => .ok (rep ++ tail)
    | none =>
      match replaceScanAuxE m fuel cs with
      | .error e => .error e
      | .ok tail => .ok (c :: tail)

def replaceScanE (m : EMatcher) (l : List Char) : Except JsErr (List Char) :=
  replaceScanAuxE m l.length l

/-- Pure parse of `<#(C\w+)\|?(\w+)?>` (parseText channel-reference step):
returns (consumed length, channel id including the leading `C`, optional
readable label).  The greedy `\w+` never needs to backtrack because neither
`\|?` nor the optional label can consume a word character that would let the
trailing `>` match. -/
def parseChanRef : List Char → Option (Nat × String × Option (List Char)) := fun cs =>
  match cs with
  | '<' :: '#' :: 'C' :: rest =>
    let n := runLen isWordChar rest
    if n = 0 then none
    else
      match rest.drop n with
      | '>' :: _ => some (3 + n + 1, ⟨'C' :: rest.take n⟩, none)
      | '|' :: rest2 =>
        let n2 := runLen isWordChar rest2
        match rest2.drop n2 with
        | '>' :: _ =>
          some (3 + n + 1 + n2 + 1, ⟨'C' :: rest.take n⟩,
            if n2 = 0 then none else some (rest2.take n2))
        | _ => none
      | _ => none
  | _ => none

/-- Pure parse of `<@(U\w+)\|?(\w+)?>` (parseText user-reference step). -/
def parseUserRef : List Char → Option (Nat × String × Option (List Char)) := fun cs =>
  match cs with
  | '<' :: '@' :: 'U' :: rest =>
    let n := runLen isWordChar rest
    if n = 0 then none
    else
      match rest.drop n with
      | '>' :: _ => some (3 + n + 1, ⟨'U' :: rest.take n⟩, none)
      | '|' :: rest2 =>
        let n2 := runLen isWordChar rest2
        match rest2.drop n2 with
        | '>' :: _ =>
          some (3 + n + 1 + n2 + 1, ⟨'U' :: rest.take n⟩,
            if n2 = 0 then none else some (rest2.take n2))
        | _ => none
      | _ => none
  | _ => none

/-- The channel-reference replace callback:
`const { name } = dataStore.getChannelById(channelId); return readable ||
`#${name}`;` — the destructuring throws a `TypeError` when the lookup
returns `undefined`, even when a readable label is present. -/
def chanReplacement (ds : DataStore) (id : String) (readable : Option (List Char)) :
    Except JsErr (List Char) :=
  match ds.getChannelById id with
  | none => .error (.typeError "getChannelById")
  | some ch =>
    .ok (match readable with
      | some r => r
      | none => '#' :: ch.name.data)

/-- The user-reference replace callback (same destructuring pattern). -/
def userReplacement (ds : DataStore) (id : String) (readable : Option (List Char)) :
    Except JsErr (List Char) :=
  match ds.getUserById id with
  | none => .error (.typeError "getUserById")
  | some u =>
    .ok (match readable with
      | some r => r
      | none => '@' :: u.name.data)

def mChanRef (ds : DataStore) : EMatcher := fun cs =>
  (parseChanRef cs).map (fun x => (x.1, chanReplacement ds x.2.1 x.2.2))

def mUserRef (ds : DataStore) : EMatcher := fun cs =>
  (parseUserRef cs).map (fun x => (x.1, userReplacement ds x.2.1 x.2.2))

/-- Matcher for `/<(?!!)([^|]+?)>/` (bare-link unwrapping): `<`, a first
character that is neither `!` (negative lookahead) nor `|`, then lazily the
shortest pipe-free run ending at a `>` at index ≥ 1 after the first
character; replaced by the bracketed content. -/
def mBareLink : Matcher := fun cs =>
  match cs with
  | '<' :: c :: rest =>
    if c = '!' ∨ c = '|' then none
    else
      match idxUntil '>' (fun x => x = '|') rest with
      | some j => some (1 + (j + 1) + 1, c :: rest.take j)
      | none => none
  | _ => none

/-- Matcher for `/<!(\w+)\|?(\w+)?>/` (command-reference rewriting):
replaced by `<label-or-command>`. -/
def mCmdRef : Matcher := fun cs =>
  match cs with
  | '<' :: '!' :: rest =>
    let n := runLen isWordChar rest
    if n = 0 then none
    else
      match rest.drop n with
      | '>' :: _ => some (2 + n + 1, '<' :: rest.take n ++ ['>'])
      | '|' :: rest2 =>
        let n2 := runLen isWordChar rest2
        match rest2.drop n2 with
        | '>' :: _ =>
          some (2 + n + 1 + n2 + 1,
            '<' :: (if n2 = 0 then rest.take n else rest2.take n2) ++ ['>'])
        | _ => none
      | _ => none
  | _ => none

/-- Matcher for `/:(\w+):/` (emoji-shortcode substitution): known codes are
replaced by their glyph from the emoji table, unknown codes pass through as
the original matched text (but the match is still consumed). -/
def mEmoji (emojis : String → Option String) : Matcher := fun cs =>
  match cs with
  | ':' :: rest =>
    let n := runLen isWordChar rest
    if n = 0 then none
    else
      match rest.drop n with
      | ':' :: _ =>
        some (1 + n + 1,
          match emojis ⟨rest.take n⟩ with
          | some g => g.data
          | none => ':' :: rest.take n ++ [':'])
      | _ => none
  | _ => none

/-- Matcher for `SLACK_REGEX = /@(\S+)/g` with parseText's callback: the
mention is replaced by its derived IRC nick when that nick is a live shadow
nick, otherwise the whole match passes through. -/
def mAtNick (nickSuffix : String) (shadowNicks : List String) : Matcher := fun cs =>
  match cs with
  | '@' :: rest =>
    let n := runLen (fun c => !isSpaceChar c) rest
    if n = 0 then none
    else
      let nick := ircNick nickSuffix ⟨rest.take n⟩
      some (1 + n,
        if shadowNicks.contains nick then nick.data
        else '@' :: rest.take n)
  | _ => none

/-- All indices (ascending) at which `tgt` occurs in the list. -/
def idxAll (tgt : Char) : List Char → List Nat
  | [] => []
  | c :: cs =>
    let r := (idxAll tgt cs).map (· + 1)
    if c = tgt then 0 :: r else r

/-- Matcher for `/<.+?\|(.+?)>/` (residual link collapse): both lazy dots
exclude line terminators; the outer lazy part prefers the leftmost `|` at
index ≥ 1 after `<` that is followed by a `>` at distance ≥ 2, and the inner
lazy part then stops at the first such `>`.  Replaced by the label between
the pipe and the `>`. -/
def mResidualLink : Matcher := fun cs =>
  match cs with
  | '<' :: rest =>
    let pfx := rest.takeWhile (fun c => !isLineTerm c)
    let pipes := (idxAll '|' pfx).filter (fun i => 1 ≤ i)
    match pipes.findSome? (fun i =>
      ((idxAll '>' pfx).find? (fun j => i + 2 ≤ j)).map (fun j => (i, j))) with
    | some (i, j) => some (1 + j + 1, (pfx.drop (i + 1)).take (j - i - 1))
    | none => none
  | _ => none

/-- The total tail of the parseText pipeline (the replaces after the two
fallible reference-resolution steps, in source order). -/
def parseTextTail (bot : Bot) (t9 : List Char) : String :=
  let t10 := replaceScan mBareLink t9
  let t11 := replaceScan mCmdRef t10
  let t12 := replaceScan (mEmoji bot.emojis) t11
  let t13 := replaceScan (mAtNick bot.nickSuffix (currentShadowNicks bot)) t12
  ⟨replaceScan mResidualLink t13⟩

/-- bot.js `parseText(text)`: the full workspace-to-legacy text pipeline, as
the ordered chain of global replaces of the source.  The channel- and
user-reference steps may throw (unresolved directory lookups); every other
step is total. -/
def parseText (bot : Bot) (text : String) : Except JsErr String :=
  let t1 := replaceScan mNL text.data
  let t2 := replaceScan (mLit "&amp;".data "&".data) t1
  let t3 := replaceScan (mLit "&lt;".data "<".data) t2
  let t4 := replaceScan (mLit "&gt;".data ">".data) t3
  let t5 := replaceScan (mLit "<!channel>".data "@channel".data) t4
  let t6 := replaceScan (mLit "<!group>".data "@group".data) t5
  let t7 := replaceScan (mLit "<!everyone>".data "@everyone".data) t6
  (replaceScanE (mChanRef bot.dataStore) t7).bind (fun t8 =>
    (replaceScanE (mUserRef bot.dataStore) t8).bind (fun t9 =>
      Except.ok (parseTextTail bot t9)))

/-- A bot over an empty directory (every data-store lookup misses), used to
exhibit the unresolved-reference behaviour of `parseText`. -/
def emptyDirBot : Bot where
  nickname := "slack-irc"
  commandCharacters := ["."]
  channelMapping := [("#general", "#chan")]
  invertedMapping := [("#chan", "#general")]
  muteSlackbot := false
  muteUsersSlack := []
  muteUsersIrc := []
  nickSuffix := "-sl"
  slackUsernameFormat := "$username (IRC)"
  avatarUrl := none
  ircClients := []
  messageQueues := []
  dataStore :=
    { getChannelGroupOrDMById := fun _ => none
      getChannelById := fun _ => none
      getUserById := fun _ => none
      getChannelOrGroupByName := fun _ => none }
  emojis := fun _ => none
  imChannelOf := fun _ => "D0"
  whoisHost := fun _ => none

/-- A bot over a total directory (every lookup resolves). -/
def totalDirBot : Bot :=
  { emptyDirBot with
    dataStore :=
      { getChannelGroupOrDMById := fun _ => none
        getChannelById := fun _ =>
          some { id := "C1", name := "general", is_channel := true,
                 is_member := true, is_group := false, members := [] }
        getUserById := fun _ => some { name := "alice" }
        getChannelOrGroupByName := fun _ => none } }

/-- Observable outbound effects of one message-handling step.  `ircSendRaw`
is `ircClient.send(...)` (raw protocol command), `ircRegisterOnce` records a
one-shot listener registration (`ircClient.once`), and `drainQueue` stands
for the call into the queue-flushing routine (`sendMessagesToIRC`, which
lives outside the analysed sources). -/
inductive Effect : Type
  | ircSay (channel text : String)
  | ircSendRaw (args : List String)
  | ircRegisterOnce (event : String)
  | ircWhois (nick : String)
  | slackRtmSend (text channel : String)
  | slackImOpen (user : String)
  | slackPost (channelId text username : String) (iconUrl : Option String)
  | drainQueue (userId : String)
  deriving DecidableEq, Repr

/-- The result of one handling step: the effects it emitted, in order, and
whether it returned normally or threw. -/
abbrev EffRes := List Effect × Except JsErr Unit

/-- JavaScript `channel.is_channel ? `#${channel.name}` : channel.name` — the display
name under which a channel is looked up in the channel mapping. -/
def slackChannelDisplayName (ch : SlackChannel) : String :=
  if ch.is_channel then "#" ++ ch.name else ch.name

/-- bot.js `isCommandMessage(message)`: the first character of the message
(as a one-character string) is a member of `commandCharacters`; an empty
message has no first character and is not a command. -/
def isCommandMessage (bot : Bot) (message : String) : Bool :=
  match message.data with
  | [] => false
  | c :: _ => bot.commandCharacters.contains ⟨[c]⟩

/-- bot.js `getIRCChannel(slackChannelID)`: resolve the channel record, then
look its display name up in the channel mapping; accessing `.is_channel` on
a missing record throws. -/
def getIRCChannel (bot : Bot) (slackChannelID : String) :
    Except JsErr (Option String) :=
  match bot.dataStore.getChannelGroupOrDMById slackChannelID with
  | none => .error (.typeError "channel.is_channel")
  | some ch => .ok (List.lookup (slackChannelDisplayName ch) bot.channelMapping)

/-- The JavaScript regex match `commandString.match(/^(\w+)\s?(\S+)?\s?(.*)$/i)`
of `processCommandMessage`, with full backtracking in JavaScript preference
order: the greedy `(\w+)` prefers the longest word run; each `\s?` prefers
consuming one whitespace character; the optional greedy `(\S+)?` prefers the
longest non-space run, down to absence; `(.*)` then must reach the end of
the string, so the residue may not contain a line terminator.  Returns
(group 1, optional group 2, group 3) or `none` when the regex does not
match.  (The `i` flag is irrelevant: the pattern has no cased literal.)
-/
def jsCommandMatch (s : String) : Option (String × Option String × String) :=
  let cs := s.data
  let maxA := runLen isWordChar cs
  ((List.range maxA).reverse.map (· + 1)).findSome? (fun a =>
    let r1 := cs.drop a
    let bOpts : List Nat :=
      match r1 with
      | c :: _ => if isSpaceChar c then [1, 0] else [0]
      | [] => [0]
    bOpts.findSome? (fun b =>
      let r2 := r1.drop b
      let maxC := runLen (fun c => !isSpaceChar c) r2
      let cOpts : List (Option Nat) :=
        ((List.range maxC).reverse.map (fun i => some (i + 1))) ++ [none]
      cOpts.findSome? (fun cLen =>
        let r3 := r2.drop (cLen.getD 0)
        let dOpts : List Nat :=
          match r3 with
          | c :: _ => if isSpaceChar c then [1, 0] else [0]
          | [] => [0]
        dOpts.findSome? (fun d =>
          let r4 := r3.drop d
          if r4.all (fun c => !isLineTerm c) then
            some (⟨cs.take a⟩, cLen.map (fun n2 => ⟨r2.take n2⟩), ⟨r4⟩)
          else none))))

/-- helpers.js `onlineIRCUsers(message, query)` at request time: resolve the
legacy channel (nothing on unmapped), register the one-shot `names` listener
and send the `NAMES` request.  The query is only consumed by the listener
callback when the reply event arrives later. -/
def onlineIRCUsers (bot : Bot) (msg : SlackMessage) (_query : Option String) :
    EffRes :=
  match getIRCChannel bot msg.channel with
  | .error e => ([], .error e)
  | .ok none => ([], .ok ())
  | .ok (some ircChannel) =>
    ([.ircRegisterOnce "names", .ircSendRaw ["NAMES", ircChannel]], .ok ())

/-- helpers.js `ircTopic(message)` at request time. -/
def ircTopic (bot : Bot) (msg : SlackMessage) : EffRes :=
  match getIRCChannel bot msg.channel with
  | .error e => ([], .error e)
  | .ok none => ([], .ok ())
  | .ok (some ircChannel) =>
    ([.ircRegisterOnce "topic", .ircSendRaw ["TOPIC", ircChannel]], .ok ())

/-- The static usage summary of helpers.js `commandHelp` (string
concatenation as in the source). -/
def helpReply : String :=
  "```.online [, query]``` " ++
    "Sends a list of all names in the IRC channel as a DM. " ++
    "If query parameter is provided, sends a list of partially matching nicks and displays " ++
    "them in the Slack channel.\n" ++
    "```.irctopic``` " ++
    "Sends the IRC channel topic to the Slack channel." ++
    "```.topic [new topic]``` " ++
    "Sets the topic in the IRC Channel." ++
    "```.help``` " ++
    "Displays this message."

/-- helpers.js `commandHelp(message)`. -/
def commandHelp (msg : SlackMessage) : EffRes :=
  ([.slackRtmSend ("HELP: " ++ helpReply) msg.channel], .ok ())

/-- helpers.js `setNewTopic(message, argument, data)`: resolve the channel
(nothing on unmapped, throw on a missing record), then `argument.split(" ")`
— a `TypeError` when the command had no argument — then register the
one-shot `topic` listener and send `TOPIC` with ``${argument} ${data}``. -/
def setNewTopic (bot : Bot) (msg : SlackMessage) (argument : Option String)
    (data : String) : EffRes :=
  match getIRCChannel bot msg.channel with
  | .error e => ([], .error e)
  | .ok none => ([], .ok ())
  | .ok (some ircChannel) =>
    match argument with
    | none => ([], .error (.typeError "argument.split"))
    | some a =>
      ([.ircRegisterOnce "topic", .ircSendRaw ["TOPIC", ircChannel, a ++ " " ++ data]],
       .ok ())

/-- The refusal notice of helpers.js `privMessage` for use outside a DM. -/
def privWarnText : String :=
  "The `.msg` command should be used through this DM only, " ++
    "using it in an open channel allows visibility to all in that channel. " ++
    "Your original message has not been sent to the user and you may want to delete it from the public channel."

/-- Replace the binding of `k` (or append a new one, JavaScript property
insertion order) in an association list. -/
def updateAssoc {α : Type} (l : List (String × α)) (k : String) (v : α) :
    List (String × α) :=
  if (List.lookup k l).isSome then
    l.map (fun p => if p.1 = k then (k, v) else p)
  else l ++ [(k, v)]

/-- JavaScript `messageQueue[ircUser] = messageQueue[ircUser] || []; …push({text: msg})`. -/
def pushQueue (q : List (String × List String)) (nick m : String) :
    List (String × List String) :=
  match List.lookup nick q with
  | none => updateAssoc q nick [m]
  | some msgs => updateAssoc q nick (msgs ++ [m])

/-- helpers.js `privMessage(message, ircUser, msg)`.  Outside a DM (channel
id not starting with `D`): open a DM and send the refusal warning, forward
nothing.  In a DM: issue `whois`; if the reply has a host, append the text
to the sender's per-target queue for that nick (a `TypeError` if the
sender's queue store was never initialised) and trigger the queue drain
(`sendMessagesToIRC`, outside the analysed sources, modelled as the opaque
`drainQueue` effect); otherwise tell the sender the target is offline.
Returns the effects, the updated queue store, and the outcome. -/
def privMessage (bot : Bot) (msg : SlackMessage) (ircUser m : String) :
    List Effect × MessageQueues × Except JsErr Unit :=
  if ¬ msg.channel.startsWith "D" then
    ([.slackImOpen msg.user, .slackRtmSend privWarnText (bot.imChannelOf msg.user)],
     bot.messageQueues, .ok ())
  else
    match bot.whoisHost ircUser with
    | some _ =>
      match List.lookup msg.user bot.messageQueues with
      | none =>
        ([.ircWhois ircUser], bot.messageQueues, .error (.typeError "messageQueue"))
      | some q =>
        ([.ircWhois ircUser, .drainQueue msg.user],
         updateAssoc bot.messageQueues msg.user (pushQueue q ircUser m), .ok ())
    | none =>
      ([.ircWhois ircUser,
        .slackRtmSend ("`" ++ ircUser ++ "` is not online.") msg.channel],
       bot.messageQueues, .ok ())

/-- bot.js `processCommandMessage(message)`: strip the first character, match
against the command regex (`null` → return silently), then dispatch on the
command name.  The `msg` case with trailing text calls `priv(...)`, whose
binding (`const priv = privMessage.bind(this)`) is commented out in the
source, so evaluating the identifier throws a `ReferenceError`; with no
trailing text it replies "You must supply a message.".  Unknown commands are
logged and dropped. -/
def processCommandMessage (bot : Bot) (msg : SlackMessage) : EffRes :=
  match jsCommandMatch (msg.text.drop 1) with
  | none => ([], .ok ())
  | some (command, argument, remaining) =>
    if command = "online" then onlineIRCUsers bot msg argument
    else if command = "irctopic" then ircTopic bot msg
    else if command = "help" then commandHelp msg
    else if command = "topic" then setNewTopic bot msg argument remaining
    else if command = "msg" then
      if remaining ≠ "" then ([], .error (.referenceError "priv"))
      else ([.slackRtmSend "You must supply a message." msg.channel], .ok ())
    else ([], .ok ())

/-- bot.js `sendToIRC(message)`: drop when the source channel is unknown,
when Slackbot is muted, or when the sender is muted (accessing `.name` on an
unresolved sender throws); drop silently when the channel is unmapped;
otherwise parse the text, and either run the command path (dispatch, then
the `Command sent from Slack by <user>:` notice, then the parsed text —
both notices to the legacy channel) or format by subtype and send once. -/
def sendToIRC (bot : Bot) (msg : SlackMessage) : EffRes :=
  match bot.dataStore.getChannelGroupOrDMById msg.channel with
  | none => ([], .ok ())
  | some channel =>
    if bot.muteSlackbot ∧ msg.user = "USLACKBOT" then ([], .ok ())
    else
      match bot.dataStore.getUserById msg.user with
      | none => ([], .error (.typeError "user.name"))
      | some user =>
        if bot.muteUsersSlack.contains user.name then ([], .ok ())
        else
          match List.lookup (slackChannelDisplayName channel) bot.channelMapping with
          | none => ([], .ok ())
          | some ircChannel =>
            match parseText bot msg.text with
            | .error e => ([], .error e)
            | .ok ptext =>
              if isCommandMessage bot ptext then
                match processCommandMessage bot msg with
                | (pes, .error e) => (pes, .error e)
                | (pes, .ok _) =>
                  (pes ++
                    [.ircSay ircChannel
                      ("Command sent from Slack by " ++ user.name ++ ":"),
                     .ircSay ircChannel ptext], .ok ())
              else
                match msg.subtype with
                | none =>
                  ([.ircSay ircChannel ("<" ++ user.name ++ "> " ++ ptext)], .ok ())
                | some st =>
                  if st = "file_share" then
                    match msg.file with
                    | none => ([], .error (.typeError "message.file"))
                    | some f =>
                      let base := "<" ++ user.name ++ "> File uploaded " ++
                        f.permalink ++ " / " ++ f.permalink_public
                      let text2 :=
                        match f.initial_comment with
                        | some cmt => base ++ " - " ++ cmt
                        | none => base
                      ([.ircSay ircChannel text2], .ok ())
                  else if st = "me_message" then
                    ([.ircSay ircChannel ("Action: " ++ user.name ++ " " ++ ptext)],
                     .ok ())
                  else ([.ircSay ircChannel ptext], .ok ())

/-- bot.js `currentChannelUsernames(slackChannel)`: map each member id to
its user record's name; a missing record makes the `.name` access throw. -/
def lookupUserNames (ds : DataStore) : List String → Except JsErr (List String)
  | [] => .ok []
  | m :: ms =>
    match ds.getUserById m with
    | none => .error (.typeError "getUserById")
    | some u =>
      match lookupUserNames ds ms with
      | .error e => .error e
      | .ok ns => .ok (u.name :: ns)

/-- The capture search of `nickRegex = /@?(\S+SUFFIX\d?)/g`: at the current
position, the greedy `\S+` prefers the longest non-space run that is
followed by the literal suffix, and `\d?` then takes one digit if present;
returns the total capture length. -/
def shadowCapture (suffix : List Char) (cs : List Char) : Option Nat :=
  let maxP := runLen (fun c => !isSpaceChar c) cs
  ((List.range maxP).reverse.map (· + 1)).findSome? (fun p =>
    if suffix.isPrefixOf (cs.drop p) then
      let afterSuf := cs.drop (p + suffix.length)
      let d : Nat :=
        match afterSuf with
        | c :: _ => if isDigitChar c then 1 else 0
        | [] => 0
      some (p + suffix.length + d)
    else none)

/-- Matcher for bot.js `replaceUsernames`: a shadow-nick mention (optionally
`@`-prefixed) is replaced by the matching live client's workspace name; with
no matching client the whole match passes through.  The optional `@?` is
greedy: consuming the `@` is preferred, falling back to matching the `\S+`
from the `@` itself. -/
def mShadowNick (nickSuffix : String) (clients : List IrcClientSt) : Matcher :=
  fun cs =>
  let repl := fun (matched capture : List Char) =>
    match clients.find? (fun cl => cl.nick == String.mk capture) with
    | some cl => cl.slackName.data
    | none => matched
  match cs with
  | c :: rest =>
    if c = '@' then
      match shadowCapture nickSuffix.data rest with
      | some len => some (1 + len, repl (c :: rest.take len) (rest.take len))
      | none =>
        match shadowCapture nickSuffix.data (c :: rest) with
        | some len => some (len, repl ((c :: rest).take len) ((c :: rest).take len))
        | none => none
    else
      match shadowCapture nickSuffix.data (c :: rest) with
      | some len => some (len, repl ((c :: rest).take len) ((c :: rest).take len))
      | none => none
  | [] => none

/-- bot.js `replaceUsernames(text)`. -/
def replaceUsernames (bot : Bot) (text : String) : String :=
  ⟨replaceScan (mShadowNick bot.nickSuffix (bot.ircClients.map (fun p => p.2)))
    text.data⟩

/-- bot.js `sendToSlack(author, channel, text)`: resolve the lowercased
legacy channel through the inverted mapping (drop when unmapped), resolve
the workspace channel (drop when unknown or the bot is neither a member nor
is it a group), drop muted legacy authors, compute the member-name list
(throws on a missing member record; its value is unused at this point in
the source), drop live shadow nicks (echo suppression), then transform the
text (shadow-nick replacement, formatting conversion, member-mention
highlighting) and post with the author-derived display options. -/
def sendToSlack (bot : Bot) (author channel text : String) : EffRes :=
  match List.lookup (toLowerStr channel) bot.invertedMapping with
  | none => ([], .ok ())
  | some slackChannelName =>
    let name := if slackChannelName.startsWith "#" then slackChannelName.drop 1
      else slackChannelName
    match bot.dataStore.getChannelOrGroupByName name with
    | none => ([], .ok ())
    | some slackChannel =>
      if ¬ slackChannel.is_member ∧ ¬ slackChannel.is_group then ([], .ok ())
      else if bot.muteUsersIrc.contains author then ([], .ok ())
      else
        match lookupUserNames bot.dataStore slackChannel.members with
        | .error e => ([], .error e)
        | .ok _ =>
          if (currentShadowNicks bot).contains author then ([], .ok ())
          else
            let replacedText := replaceUsernames bot text
            let convertedText := convertFormatting replacedText
            match lookupUserNames bot.dataStore slackChannel.members with
            | .error e => ([], .error e)
            | .ok usernames =>
              let mappedText := mapSlackUsersFold usernames convertedText
              let username := replaceAllLit "$username" author bot.slackUsernameFormat
              let iconUrl :=
                match bot.avatarUrl with
                | some url =>
                  if author ≠ bot.nickname then
                    some (replaceAllLit "$username" author url)
                  else none
                | none => none
              ([.slackPost slackChannel.id mappedText username iconUrl], .ok ())

/-- A mapped workspace channel record used by the concrete relay scenarios. -/
def generalChan : SlackChannel where
  id := "C1"
  name := "general"
  is_channel := true
  is_member := true
  is_group := false
  members := ["U1"]

/-- A sender record used by the concrete relay scenarios. -/
def aliceUser : SlackUser where
  name := "alice"

/-- A directory resolving the mapped channel `C1` and the sender `U1`. -/
def relayDS : DataStore where
  getChannelGroupOrDMById := fun id => if id = "C1" then some generalChan else none
  getChannelById := fun _ => none
  getUserById := fun id => if id = "U1" then some aliceUser else none
  getChannelOrGroupByName := fun n => if n = "general" then some generalChan else none

/-- A bridge with command prefix `.` and the mapping `#general ↔ #chan`. -/
def relayBot : Bot where
  nickname := "slack-irc"
  commandCharacters := ["."]
  channelMapping := [("#general", "#chan")]
  invertedMapping := [("#chan", "#general")]
  muteSlackbot := false
  muteUsersSlack := []
  muteUsersIrc := []
  nickSuffix := "-sl"
  slackUsernameFormat := "$username (IRC)"
  avatarUrl := none
  ircClients := []
  messageQueues := []
  dataStore := relayDS
  emojis := fun _ => none
  imChannelOf := fun _ => "D0"
  whoisHost := fun _ => none

/-- A command-prefixed message whose command string does not match the
command regex (`".."` strips to `"."`, which has no leading word char). -/
def dotsMsg : SlackMessage where
  channel := "C1"
  user := "U1"
  text := ".."
  subtype := none
  file := none

/-- A bare `.topic` command message (no argument). -/
def topicMsg : SlackMessage where
  channel := "C1"
  user := "U1"
  text := ".topic"
  subtype := none
  file := none

/-- A `.help` command message. -/
def helpMsg : SlackMessage where
  channel := "C1"
  user := "U1"
  text := ".help"
  subtype := none
  file := none

/-- Is the effect a legacy-channel chat send (`ircClient.say`)? -/
def isIrcSayB : Effect → Bool := fun e =>
  match e with
  | .ircSay _ _ => true
  | _ => false

/-- If the matcher fires on no suffix whose characters all satisfy `ok`, then
the scanner is the identity on lists of `ok` characters, for any fuel. -/
theorem replaceScanAux_id (m : Matcher) (ok : Char → Prop)
    (hm : ∀ s : List Char, (∀ c ∈ s, ok c) → m s = none) :
    ∀ (n : Nat) (l : List Char), (∀ c ∈ l, ok c) → replaceScanAux m n l = l := by
  intro n
  induction n with
  | zero => intro l _; rfl
  | succ n ih =>
    intro l hl
    cases l with
    | nil => rfl
    | cons c cs =>
      have hnone := hm (c :: cs) hl
      simp only [replaceScanAux, hnone]
      have : ∀ x ∈ cs, ok x := fun x hx => hl x (List.mem_cons_of_mem _ hx)
      rw [ih cs this]

theorem replaceScan_id (m : Matcher) (ok : Char → Prop)
    (hm : ∀ s : List Char, (∀ c ∈ s, ok c) → m s = none)
    (l : List Char) (hl : ∀ c ∈ l, ok c) : replaceScan m l = l :=
  replaceScanAux_id m ok hm l.length l hl

theorem idxUntil_mem {tgt : Char} {stop : Char → Bool} :
    ∀ {l : List Char} {k : Nat}, idxUntil tgt stop l = some k → tgt ∈ l := by
  intro l
  induction l with
  | nil => intro k h; simp [idxUntil] at h
  | cons c cs ih =>
    intro k h
    by_cases hc : c = tgt
    · exact hc ▸ List.mem_cons_self c cs
    · simp only [idxUntil, if_neg hc] at h
      by_cases hs : stop c
      · simp [hs] at h
      · simp only [hs, if_neg] at h
        cases hidx : idxUntil tgt stop cs with
        | none => rw [hidx] at h; simp at h
        | some j => exact List.mem_cons_of_mem _ (ih hidx)

theorem mColor_none_of_noReset (s : List Char)
    (h : ∀ c ∈ s, c ≠ '\x0F') : mColor s = none := by
  rcases s with _ | ⟨c, _ | ⟨d1, _ | ⟨d2, rest⟩⟩⟩
  · rfl
  · rfl
  · rfl
  · show mColor (c :: d1 :: d2 :: rest) = none
    simp only [mColor]
    by_cases hcond : c = '\x03' ∧ isDigitChar d1 ∧ isDigitChar d2
    · rw [if_pos hcond]
      cases rest with
      | nil => rfl
      | cons r0 rtl =>
        by_cases hr0 : isLineTerm r0
        · simp [hr0]
        · simp only [hr0, Bool.false_eq_true, if_false]
          cases hidx : idxUntil '\x0F' isLineTerm rtl with
          | none => rfl
          | some k =>
            exact absurd rfl
              (h '\x0F' (List.mem_cons_of_mem _ (List.mem_cons_of_mem _
                (List.mem_cons_of_mem _ (List.mem_cons_of_mem _
                  (idxUntil_mem hidx))))))
    · rw [if_neg hcond]

theorem mBold_none_of_noReset (s : List Char)
    (h : ∀ c ∈ s, c ≠ '\x0F') : mBold s = none := by
  cases s with
  | nil => rfl
  | cons c rest =>
    show mBold (c :: rest) = none
    simp only [mBold]
    by_cases hc : c = '\x02'
    · rw [if_pos hc]
      cases rest with
      | nil => rfl
      | cons r0 rtl =>
        by_cases hr0 : isLineTerm r0
        · simp [hr0]
        · simp only [hr0, Bool.false_eq_true, if_false]
          cases hidx : idxUntil '\x0F' isLineTerm rtl with
          | none => rfl
          | some k =>
            exact absurd rfl
              (h '\x0F' (List.mem_cons_of_mem _ (List.mem_cons_of_mem _
                (idxUntil_mem hidx))))
    · rw [if_neg hc]

theorem convertFormatting_id_of_noReset (text : String)
    (hnr : ∀ c ∈ text.data, c ≠ '\x0F') :
    convertFormatting text = text := by
  unfold convertFormatting
  rw [replaceScan_id mColor _ mColor_none_of_noReset text.data hnr,
      replaceScan_id mBold _ mBold_none_of_noReset text.data hnr]

/-- Claim C9: The legacy-to-workspace formatting conversion (`convertFormatting`)
is the identity on clean text: if `text` contains none of the legacy control
characters `\x02` (bold), `\x03` (color) or `\x0F` (reset), then
`convertFormatting text = text`; and an unterminated control sequence (a text
with bold/color markers but no `\x0F` reset marker anywhere) is likewise left
in the output as literal text — the function returns normally rather than
erroring. -/
theorem c9_convertFormatting_clean_id :
    (∀ text : String,
      (∀ c ∈ text.data, c ≠ '\x02' ∧ c ≠ '\x03' ∧ c ≠ '\x0F') →
      convertFormatting text = text) ∧
    (∀ text : String, (∀ c ∈ text.data, c ≠ '\x0F') →
      convertFormatting text = text) := by
  constructor
  · intro text hclean
    exact convertFormatting_id_of_noReset text (fun c hc => (hclean c hc).2.2)
  · exact convertFormatting_id_of_noReset

/-- Witness for C9: a concrete clean text, and a concrete text with an
unterminated bold control sequence, both mapped to themselves. -/
theorem c9_convertFormatting_clean_id_witness :
    convertFormatting "just plain *text*" = "just plain *text*" ∧
    convertFormatting "\x02unterminated bold" = "\x02unterminated bold" :=
  ⟨c9_convertFormatting_clean_id.1 "just plain *text*" (by decide),
   c9_convertFormatting_clean_id.2 "\x02unterminated bold" (by decide)⟩

theorem atomsMatch_literal {u : List Char} (hu : ∀ c ∈ u, c ≠ '.') :
    ∀ w r : List Char, atomsMatch u w = some r ↔ w = u ++ r := by
  induction u with
  | nil => intro w r; simp [atomsMatch]
  | cons p ps ih =>
    intro w r
    have hp : p ≠ '.' := hu p (List.mem_cons_self p ps)
    cases w with
    | nil =>
      simp only [atomsMatch, List.cons_append]
      constructor
      · intro h; cases h
      · intro h; cases h
    | cons c cs =>
      simp only [atomsMatch, List.cons_append]
      by_cases hpc : c = p
      · subst hpc
        rw [if_pos (Or.inr rfl)]
        rw [ih (fun x hx => hu x (List.mem_cons_of_mem _ hx)) cs r]
        constructor
        · intro h; rw [h]
        · intro h; injection h
      · rw [if_neg]
        · constructor
          · intro h; cases h
          · intro h
            injection h with h1 _
            exact absurd h1 hpc
        · rintro (h | h)
          · exact hp h
          · exact hpc h.symm

theorem mem_classChars_of_contains {c : Char}
    (h : classChars.contains c = true) : c ∈ classChars := by
  simpa [List.contains, List.elem_iff] using h

theorem contains_classChars_of_mem {c : Char}
    (h : c ∈ classChars) : classChars.contains c = true := by
  simpa [List.contains, List.elem_iff] using h

theorem userRegExpTest_iff {u : List Char} (hu : ∀ c ∈ u, c ≠ '.')
    (w : List Char) :
    userRegExpTest u w = true ↔
      (w = u ∨ classChars.any (fun c => w = u ++ [c]) = true) := by
  unfold userRegExpTest
  cases ham : atomsMatch u w with
  | none =>
    constructor
    · intro h; cases h
    · rintro (h | h)
      · exact absurd ((atomsMatch_literal hu w []).mpr (by simp [h])) (by simp [ham])
      · rw [List.any_eq_true] at h
        obtain ⟨c, _, hwc⟩ := h
        exact absurd ((atomsMatch_literal hu w [c]).mpr (of_decide_eq_true hwc))
          (by simp [ham])
  | some r =>
    have hwu := (atomsMatch_literal hu w r).mp ham
    subst hwu
    cases r with
    | nil => simp
    | cons c1 ctl =>
      cases ctl with
      | nil =>
        constructor
        · intro h
          right
          rw [List.any_eq_true]
          exact ⟨c1, mem_classChars_of_contains h, by simp⟩
        · rintro (h | h)
          · simp at h
          · rw [List.any_eq_true] at h
            obtain ⟨c', hc', heq⟩ := h
            have heq2 : u ++ [c1] = u ++ [c'] := of_decide_eq_true heq
            have : c1 = c' := by simpa using heq2
            exact contains_classChars_of_mem (this ▸ hc')
      | cons c2 crest =>
        constructor
        · intro h; cases h
        · rintro (h | h)
          · simp at h
          · rw [List.any_eq_true] at h
            obtain ⟨c', _, heq⟩ := h
            have heq2 : u ++ c1 :: c2 :: crest = u ++ [c'] := of_decide_eq_true heq
            simp at heq2

theorem highlightWord_eq_spec {u : List Char} (hu : ∀ c ∈ u, c ≠ '.')
    (w : List Char) : highlightWord u w = specHighlightWord u w := by
  unfold highlightWord specHighlightWord
  congr 1
  by_cases h : userRegExpTest u w = true
  · rw [if_pos h, if_pos ((userRegExpTest_iff hu w).mp h)]
  · rw [if_neg h, if_neg (fun hc => h ((userRegExpTest_iff hu w).mpr hc))]

/-- Claim C7 counterexample: For the user name `"."` (a name whose single
character is the regex wildcard), the token `"x"` neither equals the name
nor the name followed by one of `,.:!?`, so by the claim it must be left
unchanged; but `highlightUsername` prefixes it with `@` because the
dynamically built regex `^.[,.:!?]?$` matches any single character. -/
theorem c7_highlight_token_rule_counterexample :
    highlightUsername "." "x" = "@x" ∧ specHighlight "." "x" = "x" := by
  constructor <;> rfl

/-- Claim C7, amended: For every candidate user name containing no regex
metacharacter, `highlightUsername` prefixes a space-delimited token with `@`
exactly when the token does not already begin with `@` followed by the name
and the bare token case-sensitively equals the name optionally followed by
exactly one of `, . : ! ?`, leaving every other token unchanged — i.e. it
agrees with the token rule stated by the spec (`specHighlight`). -/
theorem c7_highlight_token_rule (user : String) (hu : NoMeta user)
    (text : String) : highlightUsername user text = specHighlight user text := by
  unfold highlightUsername specHighlight
  have hdot : ∀ c ∈ user.data, c ≠ '.' := fun c hc heq =>
    hu c hc (heq ▸ List.mem_cons_self _ _)
  have hfun : highlightWord user.data = specHighlightWord user.data :=
    funext (highlightWord_eq_spec hdot)
  rw [hfun]

/-- Witness for C7: the token rule at a concrete metacharacter-free name. -/
theorem c7_highlight_token_rule_witness :
    highlightUsername "alice" "hi alice bob alice!" =
      specHighlight "alice" "hi alice bob alice!" :=
  c7_highlight_token_rule "alice" (by decide) "hi alice bob alice!"

theorem splitSp_ne_nil : ∀ l : List Char, splitSp l ≠ [] := by
  intro l
  cases l with
  | nil => simp [splitSp]
  | cons c cs =>
    simp only [splitSp]
    by_cases hc : c = ' '
    · simp [hc]
    · rw [if_neg hc]
      cases splitSp cs <;> simp

theorem splitSp_nospace : ∀ (l : List Char), ∀ w ∈ splitSp l, ' ' ∉ w := by
  intro l
  induction l with
  | nil => intro w hw; simp [splitSp] at hw; simp [hw]
  | cons c cs ih =>
    intro w hw
    simp only [splitSp] at hw
    by_cases hc : c = ' '
    · rw [if_pos hc] at hw
      rcases List.mem_cons.mp hw with h | h
      · simp [h]
      · exact ih w h
    · rw [if_neg hc] at hw
      cases hsp : splitSp cs with
      | nil => exact absurd hsp (splitSp_ne_nil cs)
      | cons w0 ws0 =>
        rw [hsp] at hw
        rcases List.mem_cons.mp hw with h | h
        · subst h
          intro hmem
          rcases List.mem_cons.mp hmem with h | h
          · exact hc h.symm
          · exact ih w0 (hsp ▸ List.mem_cons_self w0 ws0) h
        · exact ih w (hsp ▸ List.mem_cons_of_mem w0 h)

theorem joinSp_splitSp : ∀ l : List Char, joinSp (splitSp l) = l := by
  intro l
  induction l with
  | nil => rfl
  | cons c cs ih =>
    simp only [splitSp]
    by_cases hc : c = ' '
    · rw [if_pos hc]
      subst hc
      cases hsp : splitSp cs with
      | nil => exact absurd hsp (splitSp_ne_nil cs)
      | cons w0 ws0 =>
        show [] ++ ' ' :: joinSp (w0 :: ws0) = ' ' :: cs
        rw [← hsp, ih]
        rfl
    · rw [if_neg hc]
      cases hsp : splitSp cs with
      | nil => exact absurd hsp (splitSp_ne_nil cs)
      | cons w0 ws0 =>
        rw [← hsp]
        cases hsp2 : splitSp cs with
        | nil => exact absurd hsp2 (splitSp_ne_nil cs)
        | cons w1 ws1 =>
          rw [hsp] at hsp2
          injection hsp2 with e1 e2
          subst e1; subst e2
          cases ws0 with
          | nil =>
            show c :: w0 = c :: cs
            have : joinSp [w0] = cs := hsp ▸ ih
            simpa [joinSp] using this
          | cons w1 ws1 =>
            show (c :: w0) ++ ' ' :: joinSp (w1 :: ws1) = c :: cs
            have : joinSp (w0 :: w1 :: ws1) = cs := hsp ▸ ih
            simp only [joinSp] at this
            simp [← this]

theorem splitSp_word (w : List Char) (hw : ' ' ∉ w) : splitSp w = [w] := by
  induction w with
  | nil => rfl
  | cons c cs ih =>
    have hc : c ≠ ' ' := fun h => hw (h ▸ List.mem_cons_self c cs)
    simp only [splitSp, if_neg hc]
    rw [ih (fun h => hw (List.mem_cons_of_mem c h))]

theorem splitSp_append (w rest : List Char) (hw : ' ' ∉ w) :
    splitSp (w ++ ' ' :: rest) = w :: splitSp rest := by
  induction w with
  | nil => simp [splitSp]
  | cons c cs ih =>
    have hc : c ≠ ' ' := fun h => hw (h ▸ List.mem_cons_self c cs)
    simp only [List.cons_append, splitSp, if_neg hc, List.append_eq]
    rw [ih (fun h => hw (List.mem_cons_of_mem c h))]

theorem splitSp_joinSp : ∀ ws : List (List Char), ws ≠ [] →
    (∀ w ∈ ws, ' ' ∉ w) → splitSp (joinSp ws) = ws := by
  intro ws
  induction ws with
  | nil => intro h; exact absurd rfl h
  | cons w ws ih =>
    intro _ hns
    cases ws with
    | nil =>
      show splitSp (joinSp [w]) = [w]
      exact splitSp_word w (hns w (List.mem_cons_self w []))
    | cons w1 ws1 =>
      show splitSp (w ++ ' ' :: joinSp (w1 :: ws1)) = w :: w1 :: ws1
      rw [splitSp_append w _ (hns w (List.mem_cons_self _ _))]
      rw [ih (by simp) (fun x hx => hns x (List.mem_cons_of_mem w hx))]

theorem highlightWord_nospace {u w : List Char} (h : ' ' ∉ w) :
    ' ' ∉ highlightWord u w := by
  unfold highlightWord
  split
  · exact h
  · split
    · intro hmem
      rcases List.mem_cons.mp hmem with h1 | h1
      · cases h1
      · exact h h1
    · exact h

theorem highlightWord_change {u w : List Char} (h : highlightWord u w ≠ w) :
    highlightWord u w = '@' :: w := by
  unfold highlightWord at h ⊢
  by_cases h1 : (('@' :: u).isPrefixOf w) = true
  · rw [if_pos h1] at h; exact absurd rfl h
  · rw [if_neg h1] at h ⊢
    by_cases h2 : userRegExpTest u w = true
    · rw [if_pos h2]
    · rw [if_neg h2] at h; exact absurd rfl h

theorem highlightWord_idem {u : List Char} (hu : ∀ c ∈ u, c ≠ '.')
    (w : List Char) : highlightWord u (highlightWord u w) = highlightWord u w := by
  rcases em (highlightWord u w = w) with h | h
  · rw [h]; exact h
  · have h2 := highlightWord_change h
    have htest : userRegExpTest u w = true := by
      by_contra hne
      apply h
      unfold highlightWord
      rcases em ((('@' :: u).isPrefixOf w) = true) with h1 | h1
      · rw [if_pos h1]
      · rw [if_neg h1, if_neg hne]
    have hsplit : ∃ r : List Char, w = u ++ r := by
      rcases (userRegExpTest_iff hu w).mp htest with hw | hw
      · exact ⟨[], by simp [hw]⟩
      · obtain ⟨c, _, heq⟩ := List.any_eq_true.mp hw
        exact ⟨[c], of_decide_eq_true heq⟩
    obtain ⟨r, hr⟩ := hsplit
    rw [h2]
    unfold highlightWord
    rw [if_pos]
    show (('@' :: u).isPrefixOf ('@' :: w)) = true
    have : (('@' :: u).isPrefixOf ('@' :: w)) = u.isPrefixOf w := by
      simp [List.isPrefixOf]
    rw [this, hr, List.isPrefixOf_iff_prefix]
    exact List.prefix_append u r

theorem wordPass_nospace (users : List String) :
    ∀ {w : List Char}, ' ' ∉ w → ' ' ∉ wordPass users w := by
  induction users with
  | nil => intro w h; exact h
  | cons u us ih =>
    intro w h
    exact ih (highlightWord_nospace h)

theorem highlightWord_at {u : String} (hu : NoMeta u)
    (hh : u.data.head? ≠ some '@') {w : List Char} (hw : w.head? = some '@') :
    highlightWord u.data w = w := by
  obtain ⟨t, rfl⟩ : ∃ t, w = '@' :: t := by
    cases w with
    | nil => cases hw
    | cons c cs => exact ⟨cs, by injection hw with h1; rw [h1]⟩
  have hdot : ∀ c ∈ u.data, c ≠ '.' := fun c hc heq =>
    hu c hc (heq ▸ List.mem_cons_self _ _)
  unfold highlightWord
  rcases em ((('@' :: u.data).isPrefixOf ('@' :: t)) = true) with h1 | h1
  · rw [if_pos h1]
  · rw [if_neg h1, if_neg]
    intro htest
    rcases (userRegExpTest_iff hdot _).mp htest with hw2 | hw2
    · cases hu2 : u.data with
      | nil => rw [hu2] at hw2; cases hw2
      | cons p ps =>
        rw [hu2] at hw2
        injection hw2 with e1 _
        exact hh (by rw [hu2, ← e1]; rfl)
    · obtain ⟨c, hc, heq⟩ := List.any_eq_true.mp hw2
      have heq2 : '@' :: t = u.data ++ [c] := of_decide_eq_true heq
      cases hu2 : u.data with
      | nil =>
        rw [hu2] at heq2
        simp only [List.nil_append] at heq2
        injection heq2 with e1 _
        rw [← e1] at hc
        simp [classChars] at hc
      | cons p ps =>
        rw [hu2] at heq2
        injection heq2 with e1 _
        exact hh (by rw [hu2, ← e1]; rfl)

theorem wordPass_at (users : List String)
    (hus : ∀ u ∈ users, NoMeta u ∧ u.data.head? ≠ some '@') :
    ∀ {w : List Char}, w.head? = some '@' → wordPass users w = w := by
  induction users with
  | nil => intro w _; rfl
  | cons u us ih =>
    intro w hw
    have hu := hus u (List.mem_cons_self u us)
    show wordPass us (highlightWord u.data w) = w
    rw [highlightWord_at hu.1 hu.2 hw]
    exact ih (fun x hx => hus x (List.mem_cons_of_mem u hx)) hw

theorem wordPass_fix_or_at (users : List String)
    (hus : ∀ u ∈ users, NoMeta u ∧ u.data.head? ≠ some '@') (w : List Char) :
    wordPass users w = w ∨ (wordPass users w).head? = some '@' := by
  induction users with
  | nil => exact Or.inl rfl
  | cons u us ih =>
    rcases em (highlightWord u.data w = w) with h | h
    · show wordPass us (highlightWord u.data w) = w ∨
        (wordPass us (highlightWord u.data w)).head? = some '@'
      rw [h]
      exact ih (fun x hx => hus x (List.mem_cons_of_mem u hx))
    · have h2 := highlightWord_change h
      show wordPass us (highlightWord u.data w) = w ∨
        (wordPass us (highlightWord u.data w)).head? = some '@'
      have h3 := wordPass_at us (fun x hx => hus x (List.mem_cons_of_mem u hx))
        (show ('@' :: w).head? = some '@' from rfl)
      rw [h2, h3]
      exact Or.inr rfl

theorem wordPass_idem (users : List String)
    (hus : ∀ u ∈ users, NoMeta u ∧ u.data.head? ≠ some '@') (w : List Char) :
    wordPass users (wordPass users w) = wordPass users w := by
  rcases wordPass_fix_or_at users hus w with h | h
  · rw [h]; exact h
  · exact wordPass_at users hus h

theorem mapSlackUsersFold_eq (users : List String) (text : String) :
    mapSlackUsersFold users text =
      ⟨joinSp ((splitSp text.data).map (wordPass users))⟩ := by
  induction users generalizing text with
  | nil =>
    show text = _
    have : (splitSp text.data).map (wordPass []) = splitSp text.data :=
      List.map_congr_left (fun w _ => rfl) |>.trans (List.map_id _)
    rw [this, joinSp_splitSp]
  | cons u us ih =>
    show mapSlackUsersFold us (highlightUsername u text) = _
    rw [ih]
    have hdata : (highlightUsername u text).data =
        joinSp ((splitSp text.data).map (highlightWord u.data)) := rfl
    rw [hdata, splitSp_joinSp _ _ _]
    · rw [List.map_map]
      rfl
    · simpa [List.map_eq_nil_iff] using splitSp_ne_nil text.data
    · intro w hw
      obtain ⟨w', hw', rfl⟩ := List.mem_map.mp hw
      exact highlightWord_nospace (splitSp_nospace _ w' hw')

/-- Claim C6 counterexample: For the user name `"."` (whose single character is
the regex wildcard in the dynamically built pattern), `highlightUsername` is
not idempotent: applying it once to `","` yields `"@,"`, and a second
application yields `"@@,"` — the dynamic regex `^.[,.:!?]?$` matches `"@,"`
again (the wildcard consumes the `@`), so the token is double-prefixed. -/
theorem c6_highlight_idempotent_counterexample :
    highlightUsername "." (highlightUsername "." ",") ≠
      highlightUsername "." "," := by decide

/-- Claim C6, amended: the function `highlightUsername` is idempotent for every user name
containing no regex metacharacter (for such names the dynamically built regex
`^${user}[,.:!?]?$` matches the name literally): applying it twice equals
applying it once; and the full per-member pass (`mapSlackUsersFold`, folding
`highlightUsername` over all channel member names) run twice equals running
it once, provided additionally that no member name begins with `@`. -/
theorem c6_highlight_idempotent :
    (∀ user : String, NoMeta user → ∀ text : String,
      highlightUsername user (highlightUsername user text) =
        highlightUsername user text) ∧
    (∀ users : List String,
      (∀ u ∈ users, NoMeta u ∧ u.data.head? ≠ some '@') → ∀ text : String,
      mapSlackUsersFold users (mapSlackUsersFold users text) =
        mapSlackUsersFold users text) := by
  constructor
  · intro user hu text
    have hdot : ∀ c ∈ user.data, c ≠ '.' := fun c hc heq =>
      hu c hc (heq ▸ List.mem_cons_self _ _)
    unfold highlightUsername
    have hdata : (String.mk (joinSp ((splitSp text.data).map
        (highlightWord user.data)))).data =
        joinSp ((splitSp text.data).map (highlightWord user.data)) := rfl
    rw [hdata, splitSp_joinSp _ _ _]
    · rw [List.map_map]
      congr 2
      exact List.map_congr_left (fun w _ => highlightWord_idem hdot w)
    · simpa [List.map_eq_nil_iff] using splitSp_ne_nil text.data
    · intro w hw
      obtain ⟨w', hw', rfl⟩ := List.mem_map.mp hw
      exact highlightWord_nospace (splitSp_nospace _ w' hw')
  · intro users hus text
    rw [mapSlackUsersFold_eq, mapSlackUsersFold_eq]
    have hdata : (String.mk (joinSp ((splitSp text.data).map
        (wordPass users)))).data =
        joinSp ((splitSp text.data).map (wordPass users)) := rfl
    rw [hdata, splitSp_joinSp _ _ _]
    · rw [List.map_map]
      congr 2
      exact List.map_congr_left (fun w _ => wordPass_idem users hus w)
    · simpa [List.map_eq_nil_iff] using splitSp_ne_nil text.data
    · intro w hw
      obtain ⟨w', hw', rfl⟩ := List.mem_map.mp hw
      exact wordPass_nospace users (splitSp_nospace _ w' hw')

/-- Witness for C6: idempotence at concrete metacharacter-free names. -/
theorem c6_highlight_idempotent_witness :
    highlightUsername "alice" (highlightUsername "alice" "hi alice") =
      highlightUsername "alice" "hi alice" ∧
    mapSlackUsersFold ["alice", "bob"]
        (mapSlackUsersFold ["alice", "bob"] "hey bob, alice") =
      mapSlackUsersFold ["alice", "bob"] "hey bob, alice" :=
  ⟨c6_highlight_idempotent.1 "alice" (by decide) "hi alice",
   c6_highlight_idempotent.2 ["alice", "bob"] (by decide) "hey bob, alice"⟩

theorem lookup_mem : ∀ {l : List (String × String)} {k v : String},
    List.lookup k l = some v → (k, v) ∈ l := by
  intro l
  induction l with
  | nil => intro k v h; cases h
  | cons p tl ih =>
    intro k v h
    rw [List.lookup] at h
    cases hbeq : k == p.1 with
    | true =>
      rw [hbeq] at h
      have h2 : some p.2 = some v := h
      injection h2 with h1
      have hk : k = p.1 := eq_of_beq hbeq
      have hp : (k, v) = p := by
        rw [Prod.ext_iff]
        exact ⟨hk, h1.symm⟩
      rw [hp]
      exact List.mem_cons_self p tl
    | false =>
      rw [hbeq] at h
      exact List.mem_cons_of_mem p (ih h)

theorem mem_lookup : ∀ {l : List (String × String)} {k v : String},
    (k, v) ∈ l → (l.map Prod.fst).Nodup → List.lookup k l = some v := by
  intro l
  induction l with
  | nil => intro k v h _; cases h
  | cons p tl ih =>
    intro k v h hnd
    rw [List.map_cons] at hnd
    rcases List.mem_cons.mp h with h1 | h1
    · have hk1 : p.1 = k := by rw [← h1]
      have hk2 : p.2 = v := by rw [← h1]
      rw [List.lookup]
      have hbeq : (k == p.1) = true := by rw [hk1]; exact beq_self_eq_true k
      rw [hbeq]
      exact congrArg some hk2
    · have hk : k ≠ p.1 := by
        intro hkp
        have hmem : k ∈ tl.map Prod.fst := List.mem_map.mpr ⟨(k, v), h1, rfl⟩
        exact (List.nodup_cons.mp hnd).1 (hkp ▸ hmem)
      rw [List.lookup]
      have hbeq : (k == p.1) = false := beq_eq_false_iff_ne.mpr hk
      rw [hbeq]
      exact ih h1 (List.nodup_cons.mp hnd).2

theorem buildChannelMapping_keys (opts : List (String × String)) :
    (buildChannelMapping opts).map Prod.fst = opts.map Prod.fst := by
  unfold buildChannelMapping
  rw [List.map_map]
  rfl

theorem invertMapping_keys (m : List (String × String)) :
    (invertMapping m).map Prod.fst = (m.map Prod.snd).reverse := by
  unfold invertMapping
  rw [List.map_reverse, List.map_map]
  rfl

theorem mem_invertMapping {m : List (String × String)} {k v : String} :
    (v, k) ∈ invertMapping m ↔ (k, v) ∈ m := by
  unfold invertMapping
  rw [List.mem_reverse, List.mem_map]
  constructor
  · rintro ⟨p, hp, heq⟩
    have h1 : p.2 = v := congrArg Prod.fst heq
    have h2 : p.1 = k := congrArg Prod.snd heq
    rw [← h1, ← h2]
    simpa using hp
  · intro h
    exact ⟨(k, v), h, rfl⟩

/-- Claim C8: For every channel-mapping configuration whose (object-unique)
workspace keys map, after normalization (password stripped, lowercased), to
pairwise distinct legacy channel names, the constructed `channelMapping` and
`invertedMapping` are mutual inverses on mapped keys: looking a mapped
workspace channel forward and then backward returns it, and looking a mapped
legacy channel backward and then forward returns it. -/
theorem c8_channelMapping_inverse (opts : List (String × String))
    (hk : (opts.map Prod.fst).Nodup)
    (hv : ((buildChannelMapping opts).map Prod.snd).Nodup) :
    (∀ s v : String, List.lookup s (buildChannelMapping opts) = some v →
      List.lookup v (invertMapping (buildChannelMapping opts)) = some s) ∧
    (∀ c s : String, List.lookup c (invertMapping (buildChannelMapping opts)) = some s →
      List.lookup s (buildChannelMapping opts) = some c) := by
  constructor
  · intro s v h
    have hmem : (s, v) ∈ buildChannelMapping opts := lookup_mem h
    have hmem2 : (v, s) ∈ invertMapping (buildChannelMapping opts) :=
      mem_invertMapping.mpr hmem
    apply mem_lookup hmem2
    rw [invertMapping_keys]
    exact List.nodup_reverse.mpr hv
  · intro c s h
    have hmem : (c, s) ∈ invertMapping (buildChannelMapping opts) := lookup_mem h
    have hmem2 : (s, c) ∈ buildChannelMapping opts := mem_invertMapping.mp hmem
    apply mem_lookup hmem2
    rw [buildChannelMapping_keys]
    exact hk

/-- Witness for C8 at a concrete two-entry mapping (one legacy channel with a
password and upper-case letters, exercising the normalization). -/
theorem c8_channelMapping_inverse_witness :
    List.lookup "#gen"
      (invertMapping (buildChannelMapping
        [("#general", "#Gen secretpass"), ("#dev", "#dev")])) = some "#general" :=
  (c8_channelMapping_inverse [("#general", "#Gen secretpass"), ("#dev", "#dev")]
    (by decide) (by decide)).1 "#general" "#gen" (by decide)

theorem replaceScanAuxE_total (m : EMatcher)
    (hm : ∀ (s : List Char) (k : Nat) (r : Except JsErr (List Char)),
      m s = some (k, r) → ∃ v, r = .ok v) :
    ∀ (n : Nat) (l : List Char), ∃ v, replaceScanAuxE m n l = .ok v := by
  intro n
  induction n with
  | zero => intro l; exact ⟨l, rfl⟩
  | succ n ih =>
    intro l
    cases l with
    | nil => exact ⟨[], rfl⟩
    | cons c cs =>
      cases hm0 : m (c :: cs) with
      | none =>
        obtain ⟨v, hv⟩ := ih cs
        exact ⟨c :: v, by simp [replaceScanAuxE, hm0, hv]⟩
      | some kr =>
        obtain ⟨k, r⟩ := kr
        obtain ⟨v, rfl⟩ := hm _ _ _ hm0
        obtain ⟨v2, hv2⟩ := ih (cs.drop (k - 1))
        exact ⟨v ++ v2, by simp [replaceScanAuxE, hm0, hv2]⟩

theorem mChanRef_total (ds : DataStore)
    (hc : ∀ id, ds.getChannelById id ≠ none) :
    ∀ (s : List Char) (k : Nat) (r : Except JsErr (List Char)),
      mChanRef ds s = some (k, r) → ∃ v, r = .ok v := by
  intro s k r h
  unfold mChanRef at h
  cases hp : parseChanRef s with
  | none => rw [hp] at h; cases h
  | some x =>
    rw [hp] at h
    injection h with h1
    injection h1 with _ h2
    rw [← h2]
    unfold chanReplacement
    cases hl : ds.getChannelById x.2.1 with
    | none => exact absurd hl (hc x.2.1)
    | some ch => exact ⟨_, rfl⟩

theorem mUserRef_total (ds : DataStore)
    (hu : ∀ id, ds.getUserById id ≠ none) :
    ∀ (s : List Char) (k : Nat) (r : Except JsErr (List Char)),
      mUserRef ds s = some (k, r) → ∃ v, r = .ok v := by
  intro s k r h
  unfold mUserRef at h
  cases hp : parseUserRef s with
  | none => rw [hp] at h; cases h
  | some x =>
    rw [hp] at h
    injection h with h1
    injection h1 with _ h2
    rw [← h2]
    unfold userReplacement
    cases hl : ds.getUserById x.2.1 with
    | none => exact absurd hl (hu x.2.1)
    | some u => exact ⟨_, rfl⟩

/-- Claim C2 counterexample: the function `parseText` is not total: on the text `<#C123>`
whose channel id does not resolve in the directory, the channel-reference
callback destructures `undefined` and throws a `TypeError`; the reference is
not passed through literally. -/
theorem c2_parseText_total_counterexample :
    parseText emptyDirBot "<#C123>" = .error (.typeError "getChannelById") := by
  rfl

/-- Claim C2, amended: the function `parseText` returns a result for every input text
provided every channel and user directory lookup succeeds; when a referenced
`<#C…>`/`<@U…>` id does not resolve, `parseText` instead throws a `TypeError`
(from destructuring the missing directory entry) rather than passing the
reference through literally (see the counterexample). -/
theorem replaceScanE_total (m : EMatcher)
    (hm : ∀ (s : List Char) (k : Nat) (r : Except JsErr (List Char)),
      m s = some (k, r) → ∃ v, r = .ok v) (l : List Char) :
    ∃ v, replaceScanE m l = .ok v :=
  replaceScanAuxE_total m hm l.length l

theorem c2_parseText_total (bot : Bot)
    (hc : ∀ id, bot.dataStore.getChannelById id ≠ none)
    (hu : ∀ id, bot.dataStore.getUserById id ≠ none) :
    ∀ text : String, ∃ r, parseText bot text = .ok r := by
  intro text
  show ∃ r, (replaceScanE (mChanRef bot.dataStore) _).bind _ = .ok r
  obtain ⟨t8, h8⟩ := replaceScanE_total (mChanRef bot.dataStore)
    (mChanRef_total bot.dataStore hc)
    (replaceScan (mLit "<!everyone>".data "@everyone".data)
      (replaceScan (mLit "<!group>".data "@group".data)
        (replaceScan (mLit "<!channel>".data "@channel".data)
          (replaceScan (mLit "&gt;".data ">".data)
            (replaceScan (mLit "&lt;".data "<".data)
              (replaceScan (mLit "&amp;".data "&".data)
                (replaceScan mNL text.data)))))))
  rw [h8]
  obtain ⟨t9, h9⟩ := replaceScanE_total (mUserRef bot.dataStore)
    (mUserRef_total bot.dataStore hu) t8
  show ∃ r, (replaceScanE (mUserRef bot.dataStore) t8).bind _ = .ok r
  rw [h9]
  exact ⟨_, rfl⟩

/-- Witness for C2: with a resolving directory, `parseText` succeeds on a
text containing channel and user references. -/
theorem c2_parseText_total_witness :
    ∃ r, parseText totalDirBot "hey <@U42> look at <#C123|general>" = .ok r :=
  c2_parseText_total totalDirBot (fun _ h => Option.noConfusion h)
    (fun _ h => Option.noConfusion h) "hey <@U42> look at <#C123|general>"

/-- Claim C1: The claim describes the `.msg <nick> <text>` flow implemented by
`privMessage` (enqueue from a DM when the target is online; refusal warning
from a shared channel).  The dispatch in `processCommandMessage` however
calls `priv(message, argument, remaining)` while the binding
`const priv = privMessage.bind(this)` is commented out and `privMessage` is
not imported in bot.js, so a `.msg` command with trailing text throws a
`ReferenceError` before either behaviour can occur: evaluated here at
`.msg bob hello` sent from the direct conversation `D123`. -/
theorem c1_msg_command_throws :
    processCommandMessage relayBot
      { channel := "D123", user := "U1", text := ".msg bob hello",
        subtype := none, file := none } =
      ([], .error (.referenceError "priv")) := by rfl

/-- Lemma: `privMessage` itself (the unreachable handler) does implement the
claim's shared-channel half: invoked from a non-direct channel it opens a DM
to the sender, sends the refusal warning there, and forwards nothing (the
queue store is unchanged). -/
theorem privMessage_shared_channel_refuses (bot : Bot) (msg : SlackMessage)
    (ircUser m : String) (h : msg.channel.startsWith "D" = false) :
    privMessage bot msg ircUser m =
      ([.slackImOpen msg.user,
        .slackRtmSend privWarnText (bot.imChannelOf msg.user)],
       bot.messageQueues, .ok ()) := by
  unfold privMessage
  rw [if_pos (by simp [h])]

/-- Lemma: `privMessage` itself also implements the claim's direct-conversation
half: from a DM, with the target online (whois reply has a host) and the
sender's queue store present, the text is appended to the sender's
per-target queue for that nick and the queue drain is triggered; no channel
message is sent. -/
theorem privMessage_direct_online_enqueues (bot : Bot) (msg : SlackMessage)
    (ircUser m host : String) (q : List (String × List String))
    (hD : msg.channel.startsWith "D" = true)
    (hwho : bot.whoisHost ircUser = some host)
    (hq : List.lookup msg.user bot.messageQueues = some q) :
    privMessage bot msg ircUser m =
      ([.ircWhois ircUser, .drainQueue msg.user],
       updateAssoc bot.messageQueues msg.user (pushQueue q ircUser m), .ok ()) := by
  unfold privMessage
  rw [if_neg (by simp [hD]), hwho, hq]

/-- Claim C3 counterexample: The message `..` in a mapped channel starts with
the configured prefix `.` but its command string `.` does not match the
command regex; the claim says it is relayed normally as `<alice> ..` with no
command notice, but the code still takes the command path: it sends the
notice `Command sent from Slack by alice:` followed by the bare parsed text
`..` (without the `<alice> ` prefix). -/
theorem c3_command_prefix_nomatch_counterexample :
    (sendToIRC relayBot dotsMsg).1 =
      [.ircSay "#chan" "Command sent from Slack by alice:",
       .ircSay "#chan" ".."] ∧
    (sendToIRC relayBot dotsMsg).1 ≠ [.ircSay "#chan" "<alice> .."] := by
  constructor
  · rfl
  · decide

/-- Claim C3, amended: A workspace message in a mapped channel from an
unmuted, resolvable sender whose parsed text begins with a configured
command prefix character but whose text (after stripping the first
character) does not match the command regex is still handled as a command
message — no handler runs, but the bridge sends the notice
`Command sent from Slack by <user>:` followed by the bare parsed text (not
`<user> <text>`) to the mapped legacy channel. -/
theorem c3_command_prefix_nomatch (bot : Bot) (msg : SlackMessage)
    (channel : SlackChannel) (user : SlackUser) (ircChannel ptext : String)
    (hch : bot.dataStore.getChannelGroupOrDMById msg.channel = some channel)
    (hsb : msg.user ≠ "USLACKBOT")
    (husr : bot.dataStore.getUserById msg.user = some user)
    (hmute : bot.muteUsersSlack.contains user.name = false)
    (hmap : List.lookup (slackChannelDisplayName channel) bot.channelMapping =
      some ircChannel)
    (hpt : parseText bot msg.text = .ok ptext)
    (hcmd : isCommandMessage bot ptext = true)
    (hnm : jsCommandMatch (msg.text.drop 1) = none) :
    sendToIRC bot msg =
      ([.ircSay ircChannel ("Command sent from Slack by " ++ user.name ++ ":"),
        .ircSay ircChannel ptext], .ok ()) := by
  have hsb' : ¬(bot.muteSlackbot = true ∧ msg.user = "USLACKBOT") :=
    fun hand => hsb hand.2
  unfold sendToIRC processCommandMessage
  simp only [hch, husr, hmap, hpt, hcmd, hnm, hmute, Bool.false_eq_true,
    if_false, if_true, if_neg hsb', List.nil_append]

/-- Witness for C3 at the concrete `..` scenario. -/
theorem c3_command_prefix_nomatch_witness :
    sendToIRC relayBot dotsMsg =
      ([.ircSay "#chan" "Command sent from Slack by alice:",
        .ircSay "#chan" ".."], .ok ()) :=
  c3_command_prefix_nomatch relayBot dotsMsg generalChan aliceUser "#chan" ".."
    rfl (by decide) rfl rfl rfl rfl rfl rfl

/-- Claim C4: Mute enforcement: a workspace message whose (resolvable) sender
name is in the workspace mute set produces no effect at all in `sendToIRC`
(in particular no legacy-side send); a legacy message whose author nickname
is in the legacy mute set produces no effect at all in `sendToSlack` (in
particular no workspace-side send). -/
theorem c4_mute_enforcement :
    (∀ (bot : Bot) (msg : SlackMessage) (u : SlackUser),
      bot.dataStore.getUserById msg.user = some u →
      bot.muteUsersSlack.contains u.name = true →
      (sendToIRC bot msg).1 = []) ∧
    (∀ (bot : Bot) (author channel text : String),
      bot.muteUsersIrc.contains author = true →
      (sendToSlack bot author channel text).1 = []) := by
  constructor
  · intro bot msg u hu hm
    unfold sendToIRC
    repeat' split
    all_goals first
      | rfl
      | simp_all
  · intro bot author channel text h
    unfold sendToSlack
    dsimp only
    repeat' split
    all_goals rfl

/-- Witness for C4: a muted workspace sender and a muted legacy author both
produce no effects. -/
theorem c4_mute_enforcement_witness :
    (sendToIRC
      { relayBot with muteUsersSlack := ["alice"] }
      { channel := "C1", user := "U1", text := "hello", subtype := none,
        file := none }).1 = [] ∧
    (sendToSlack { relayBot with muteUsersIrc := ["troll"] }
      "troll" "#chan" "hi").1 = [] :=
  ⟨c4_mute_enforcement.1 { relayBot with muteUsersSlack := ["alice"] }
      { channel := "C1", user := "U1", text := "hello", subtype := none,
        file := none } aliceUser rfl rfl,
   c4_mute_enforcement.2 { relayBot with muteUsersIrc := ["troll"] }
      "troll" "#chan" "hi" rfl⟩

/-- Claim C5: Echo suppression: an inbound legacy message whose author equals
the nickname of a currently-live shadow session (an entry of `ircClients`)
produces no effect at all in `sendToSlack` — in particular no
workspace-side send — whatever the message text and channel mapping. -/
theorem c5_shadow_echo_suppressed (bot : Bot) (author channel text : String)
    (h : (currentShadowNicks bot).contains author = true) :
    (sendToSlack bot author channel text).1 = [] := by
  unfold sendToSlack
  dsimp only
  repeat' split
  all_goals rfl

/-- Witness for C5: a message authored by the live shadow nick `bob-sl` on a
mapped channel is dropped. -/
theorem c5_shadow_echo_suppressed_witness :
    (sendToSlack
      { relayBot with ircClients := [("U9", { nick := "bob-sl", slackName := "bob" })] }
      "bob-sl" "#chan" "hello world").1 = [] :=
  c5_shadow_echo_suppressed
    { relayBot with ircClients := [("U9", { nick := "bob-sl", slackName := "bob" })] }
    "bob-sl" "#chan" "hello world" rfl

/-- Claim C10 counterexample: The bare `.topic` message in a mapped channel
from an unmuted user has a parsed text beginning with the configured prefix,
but handling it sends no message at all to the legacy channel: the `topic`
handler throws a `TypeError` (`argument.split` with no argument) inside
`processCommandMessage`, aborting `sendToIRC` before the
`Command sent from Slack by <user>:` notice and the command text are said. -/
theorem c10_command_notice_counterexample :
    sendToIRC relayBot topicMsg = ([], .error (.typeError "argument.split")) := by
  rfl

/-- No command handler emits a legacy-channel chat send (`ircClient.say`)
synchronously: the command dispatcher's effects contain no `ircSay`. -/
theorem processCommandMessage_no_ircSay (bot : Bot) (msg : SlackMessage) :
    (processCommandMessage bot msg).1.filter isIrcSayB = [] := by
  unfold processCommandMessage onlineIRCUsers ircTopic commandHelp setNewTopic
  repeat' split
  all_goals rfl

/-- Claim C10, amended: For a workspace message in a mapped channel from an
unmuted, resolvable sender whose parsed text begins with a configured
command prefix character, *provided command dispatch returns without a
JavaScript error* (the `msg`-with-text and argument-less `topic` commands
throw — see the counterexample), handling sends exactly two messages to the
mapped legacy channel, in order: the notice
`Command sent from Slack by <user>:`, then additionally the parsed command
text itself — the command text is not withheld. -/
theorem c10_command_notice_and_text (bot : Bot) (msg : SlackMessage)
    (channel : SlackChannel) (user : SlackUser) (ircChannel ptext : String)
    (pes : List Effect)
    (hch : bot.dataStore.getChannelGroupOrDMById msg.channel = some channel)
    (hsb : msg.user ≠ "USLACKBOT")
    (husr : bot.dataStore.getUserById msg.user = some user)
    (hmute : bot.muteUsersSlack.contains user.name = false)
    (hmap : List.lookup (slackChannelDisplayName channel) bot.channelMapping =
      some ircChannel)
    (hpt : parseText bot msg.text = .ok ptext)
    (hcmd : isCommandMessage bot ptext = true)
    (hpcm : processCommandMessage bot msg = (pes, .ok ())) :
    (sendToIRC bot msg).1.filter isIrcSayB =
      [.ircSay ircChannel ("Command sent from Slack by " ++ user.name ++ ":"),
       .ircSay ircChannel ptext] ∧
    (sendToIRC bot msg).2 = .ok () := by
  have hsb' : ¬(bot.muteSlackbot = true ∧ msg.user = "USLACKBOT") :=
    fun hand => hsb hand.2
  have hfil : pes.filter isIrcSayB = [] := by
    have h0 := processCommandMessage_no_ircSay bot msg
    rw [hpcm] at h0
    exact h0
  unfold sendToIRC
  simp only [hch, husr, hmap, hpt, hcmd, hmute, hpcm, Bool.false_eq_true,
    if_false, if_true, if_neg hsb']
  constructor
  · rw [List.filter_append, hfil]
    rfl
  · trivial

/-- Witness for C10 at the concrete `.help` scenario. -/
theorem c10_command_notice_and_text_witness :
    (sendToIRC relayBot helpMsg).1.filter isIrcSayB =
      [.ircSay "#chan" "Command sent from Slack by alice:",
       .ircSay "#chan" ".help"] ∧
    (sendToIRC relayBot helpMsg).2 = .ok () :=
  c10_command_notice_and_text relayBot helpMsg generalChan aliceUser "#chan"
    ".help" [.slackRtmSend ("HELP: " ++ helpReply) "C1"]
    rfl (by decide) rfl rfl rfl rfl rfl rfl

end SlackIrc
